import Mathlib

/-!
# The CUDA clang-tidy checks: `nextStmt`, `CheckKernelLaunchCheck`, `HasDeviceGuardCheck`

A shallow embedding of
`clang-tools-extra/clang-tidy/cuda/CheckKernelLaunchCheck.cpp` and of the
bind / lookup part of `clang-tools-extra/clang-tidy/cuda/HasDeviceGuardCheck.cpp`.

Modelling decisions.

* Statements and declarations are arena nodes named by a `Nat` (the pointer).
  `ASTContext.stmts` dereferences a statement pointer, `ASTContext.getParents`
  is the parent map queried by `Finder->getASTContext().getParents(..)`.
  Nothing forces the parent map and the bodies of compound statements to
  agree, so malformed trees are expressible.
* The `while (true)` loop of `nextStmt` is `nextStmtLoop`, with a fuel
  argument counting loop iterations; `none` means that the loop has not
  left within that many iterations.
* `assert` is modelled as enabled: a failed assertion is `Fault.assertion`.
* Dereferencing a null pointer is `Fault.nullDeref`.
-/

namespace Cuda

/-! ## Data model -/

/-- Statement classes (`Stmt::getStmtClass`) that the checks can tell apart.
`Expr` derives from `Stmt`, `CUDAKernelCallExpr` derives from `CallExpr`. -/
inductive StmtClass
  | CompoundStmt
  | IfStmt
  | ForStmt
  | NullStmt
  | DeclStmt
  | CallExpr
  | CUDAKernelCallExpr
  | DeclRefExpr
  | ImplicitCastExpr
  deriving DecidableEq, Repr

/-- Declaration classes that the checks can tell apart. -/
inductive DeclClass
  | FunctionDecl
  | CXXRecordDecl
  | ParmVarDecl
  | VarDecl
  deriving DecidableEq, Repr

/-- A statement node. `body` is `CompoundStmt::body()` (empty for the other
classes), `calleeDecl` is the declaration a call expression calls, `loc` is
`getExprLoc()`. -/
structure Stmt where
  stmtClass : StmtClass
  body : List Nat
  calleeDecl : Option Nat
  loc : Nat
  deriving DecidableEq, Repr

/-- A declaration node: its class and its (unqualified) name. -/
structure Decl where
  declClass : DeclClass
  name : String
  deriving DecidableEq, Repr

/-- The type-erased node handle `DynTypedNode`: a statement, a declaration, or
some other kind of node (a type location, a nested name specifier, ...). -/
inductive DynTypedNode
  | stmt (id : Nat)
  | decl (id : Nat)
  | other (id : Nat)
  deriving DecidableEq, Repr

/-- The part of `ASTContext` the checks read: the nodes behind the pointers and
the parent map. -/
structure ASTContext where
  stmts : Nat → Stmt
  decls : Nat → Decl
  getParents : Nat → List DynTypedNode

/-- Ways in which the code stops without returning. -/
inductive Fault
  | assertion
  | nullDeref
  | outOfFuel
  deriving DecidableEq, Repr

/-- A reported diagnostic: source location and message. -/
structure Diagnostic where
  loc : Nat
  message : String
  deriving DecidableEq, Repr

/-- The map `BoundNodes` from bind names to nodes. -/
abbrev BoundNodes := List (String × DynTypedNode)

/-- What the callback `check` receives: `MatchFinder::MatchResult`. -/
structure MatchResult where
  Nodes : BoundNodes
  Context : ASTContext

/-! ## `isa<>` / `get<>` tests -/

/-- Whether a statement class is `CompoundStmt`: `isa<CompoundStmt>`. -/
def isaCompoundStmt (c : StmtClass) : Bool :=
  match c with
  | .CompoundStmt => true
  | _ => false

/-- Whether a statement class derives from `CallExpr`. -/
def isaCallExpr (c : StmtClass) : Bool :=
  match c with
  | .CallExpr => true
  | .CUDAKernelCallExpr => true
  | _ => false

/-- Whether a statement class is `CUDAKernelCallExpr`. -/
def isaCUDAKernelCallExpr (c : StmtClass) : Bool :=
  match c with
  | .CUDAKernelCallExpr => true
  | _ => false

/-- Whether a statement class derives from `Expr`. -/
def isaExpr (c : StmtClass) : Bool :=
  match c with
  | .CallExpr => true
  | .CUDAKernelCallExpr => true
  | .DeclRefExpr => true
  | .ImplicitCastExpr => true
  | _ => false

/-- The conversion `DynTypedNode::get<Stmt>()`: the statement pointer, or null. -/
def DynTypedNode.getStmt (n : DynTypedNode) : Option Nat :=
  match n with
  | .stmt id => some id
  | _ => none

/-! ## The matcher `nextStmt` -/

/-- How the ascent loop of `nextStmt` is left: by one of its two `return false`
statements, or by `break` with `containing_compound` set. `sibling` is the
value of the loop variable at that moment. -/
inductive Ascent
  | noParents (sibling : Nat)
  | parentNotStmt (sibling : Nat)
  | found (containing_compound : Nat) (sibling : Nat)
  deriving DecidableEq, Repr

/-- The `while (true)` loop of `nextStmt` (source lines 28-47), started with
`sibling`. The first argument bounds the number of iterations. -/
def nextStmtLoop (ctx : ASTContext) : Nat → Nat → Option Ascent
  | 0, _ => none
  | fuel + 1, sibling =>
    match ctx.getParents sibling with
    | [] => some (.noParents sibling)
    | p0 :: _ =>
      match p0.getStmt with
      | none => some (.parentNotStmt sibling)
      | some pstmt =>
        if isaCompoundStmt (ctx.stmts pstmt).stmtClass then
          some (.found pstmt sibling)
        else
          nextStmtLoop ctx fuel pstmt

/-- The part of `nextStmt` after the loop (source lines 55-60):
`llvm::find`, the assertion, the increment and the inner matcher. -/
def nextStmtTail (ctx : ASTContext) (containing_compound sibling : Nat)
    (InnerMatcher : Nat → Bool) : Except Fault Bool :=
  let body := (ctx.stmts containing_compound).body
  let I := body.indexOf sibling
  if I = body.length then
    .error .assertion
  else if h : I + 1 < body.length then
    .ok (InnerMatcher body[I + 1])
  else
    .ok false

/-- The matcher `nextStmt(InnerMatcher)` applied to the statement `Node`. The
test `if (!containing_compound) return false;` after the loop has no branch
here: the loop is left by `break` only with `containing_compound` set. -/
def nextStmt (ctx : ASTContext) (fuel : Nat) (Node : Nat)
    (InnerMatcher : Nat → Bool) : Except Fault Bool :=
  match nextStmtLoop ctx fuel Node with
  | none => .error .outOfFuel
  | some (.noParents _) => .ok false
  | some (.parentNotStmt _) => .ok false
  | some (.found containing_compound sibling) =>
    nextStmtTail ctx containing_compound sibling InnerMatcher

/-! ## `CheckKernelLaunchCheck` -/

/-- Modelled from the spec: the library matcher
`callExpr(callee(functionDecl(hasName("cudaGetLastError"))))` bound to
`check_kernel` in `registerMatchers` (the matcher combinators are not under
src/). It is the predicate "is a call to the status-check function": the node
is a call expression whose callee is a function declaration with that name. -/
def check_kernel (ctx : ASTContext) (s : Nat) : Bool :=
  isaCallExpr (ctx.stmts s).stmtClass &&
    match (ctx.stmts s).calleeDecl with
    | none => false
    | some d =>
      (ctx.decls d).declClass == .FunctionDecl && (ctx.decls d).name == "cudaGetLastError"

/-- The pattern registered by `CheckKernelLaunchCheck::registerMatchers`,
`cudaKernelCallExpr(unless(nextStmt(check_kernel))).bind("x")`, tried at the
statement `Node`: `.ok none` is "no match", `.ok (some b)` is a match with
bindings `b`. The node-class test comes first, the inner matcher runs only on
kernel calls. -/
def CheckKernelLaunchCheck.registerMatchers (ctx : ASTContext) (fuel : Nat) (Node : Nat) :
    Except Fault (Option BoundNodes) :=
  if isaCUDAKernelCallExpr (ctx.stmts Node).stmtClass then
    match nextStmt ctx fuel Node (check_kernel ctx) with
    | .error e => .error e
    | .ok true => .ok none
    | .ok false => .ok (some [("x", .stmt Node)])
  else
    .ok none

/-- Modelled from the spec: `BoundNodes::getNodeAs<Expr>(ID)` (not under
src/): the node bound to `ID` when there is one and it is an expression,
otherwise null. -/
def getNodeAsExpr (Result : MatchResult) (ID : String) : Option Nat :=
  match Result.Nodes.lookup ID with
  | some (.stmt id) =>
    if isaExpr (Result.Context.stmts id).stmtClass then some id else none
  | _ => none

/-- Modelled from the spec: `BoundNodes::getNodeAs<FunctionDecl>(ID)` (not
under src/): the node bound to `ID` when there is one and it is a function
declaration, otherwise null. -/
def getNodeAsFunctionDecl (Result : MatchResult) (ID : String) : Option Nat :=
  match Result.Nodes.lookup ID with
  | some (.decl id) =>
    if (Result.Context.decls id).declClass = .FunctionDecl then some id else none
  | _ => none

/-- The callback `CheckKernelLaunchCheck::check`. The state it runs in is the
tree and the diagnostics emitted so far; `diag(..)` appends one diagnostic. -/
def CheckKernelLaunchCheck.check (Result : MatchResult) (Diags : List Diagnostic) :
    Except Fault (ASTContext × List Diagnostic) :=
  match getNodeAsExpr Result "x" with
  | none => .error .nullDeref
  | some S =>
    .ok (Result.Context,
      Diags ++ [⟨(Result.Context.stmts S).loc, "Kernel lauch without accompanying launch check"⟩])

/-- Modelled from the spec: the traversal driver (`MatchFinder`, not under
src/) "calls the callback once per tree location satisfying the pattern": it
tries the registered pattern at every statement of the traversal `nodes`, in
order, and runs `check` on each match. -/
def matchAST (ctx : ASTContext) (fuel : Nat) :
    List Nat → List Diagnostic → Except Fault (List Diagnostic)
  | [], Diags => .ok Diags
  | Node :: rest, Diags =>
    match CheckKernelLaunchCheck.registerMatchers ctx fuel Node with
    | .error e => .error e
    | .ok none => matchAST ctx fuel rest Diags
    | .ok (some Nodes) =>
      match CheckKernelLaunchCheck.check ⟨Nodes, ctx⟩ Diags with
      | .error e => .error e
      | .ok (_, Diags') => matchAST ctx fuel rest Diags'

/-! ## `HasDeviceGuardCheck` -/

/-- The pattern registered by `HasDeviceGuardCheck::registerMatchers`,
`functionDecl(<inner>).bind("func")`, tried at the declaration `Node`. The
inner library matchers (`hasAnyParameter(..)`, `hasDescendant(..)`) are the
parameter `inner`. -/
def HasDeviceGuardCheck.registerMatchers (ctx : ASTContext) (inner : Nat → Bool) (Node : Nat) :
    Option BoundNodes :=
  if (ctx.decls Node).declClass = .FunctionDecl ∧ inner Node = true then
    some [("func", .decl Node)]
  else
    none

/-- The callback `HasDeviceGuardCheck::check` up to its first dereference of
`tensor_func_with_launch` (`->dump()`): the declaration that gets dumped, or a
null dereference. -/
def HasDeviceGuardCheck.check (Result : MatchResult) : Except Fault Nat :=
  match getNodeAsFunctionDecl Result "x" with
  | none => .error .nullDeref
  | some tensor_func_with_launch => .ok tensor_func_with_launch

/-! ## Properties used to state the theorems -/

/-- The first parent of a statement when that parent is a statement. -/
def parentStmt (ctx : ASTContext) (n : Nat) : Option Nat :=
  match ctx.getParents n with
  | [] => none
  | p0 :: _ => p0.getStmt

/-- The `k`-th ancestor of `n` along first parents that are statements. -/
def ancestor (ctx : ASTContext) : Nat → Nat → Option Nat
  | 0, n => some n
  | k + 1, n =>
    match parentStmt ctx n with
    | none => none
    | some p => ancestor ctx k p

/-- Whether `n` has depth at most `d`: the chain of first parents that are
statements, started at `n`, ends after at most `d` moves to a parent. -/
def depthLE (ctx : ASTContext) : Nat → Nat → Bool
  | 0, n => (parentStmt ctx n).isNone
  | d + 1, n =>
    match parentStmt ctx n with
    | none => true
    | some p => depthLE ctx d p

/-- The node reached from `n` by `k` moves to a parent, each parent being a
statement that is not a `CompoundStmt` (a chain of `k` wrappers); `none` when
there is no such chain. -/
def wrapperTop (ctx : ASTContext) : Nat → Nat → Option Nat
  | 0, n => some n
  | k + 1, n =>
    match parentStmt ctx n with
    | none => none
    | some w =>
      if isaCompoundStmt (ctx.stmts w).stmtClass then none else wrapperTop ctx k w

/-- The data-model invariant at one node: when the first parent of `n` is a
`CompoundStmt`, `n` occurs exactly once in its body. -/
def ownedByParent (ctx : ASTContext) (n : Nat) : Bool :=
  match parentStmt ctx n with
  | none => true
  | some B =>
    if isaCompoundStmt (ctx.stmts B).stmtClass then (ctx.stmts B).body.count n == 1 else true

/-- A well-formed tree: the data-model invariant holds at every node. -/
def WellFormed (ctx : ASTContext) : Prop :=
  ∀ n, ownedByParent ctx n = true

/-- The statement that immediately follows the ascended node in the nearest
enclosing `CompoundStmt`, when the ascent from `Node` finds one and the
ascended node is in its body and not its last statement. -/
def followingStmt (ctx : ASTContext) (fuel : Nat) (Node : Nat) : Option Nat :=
  match nextStmtLoop ctx fuel Node with
  | some (.found B S) => (ctx.stmts B).body[(ctx.stmts B).body.indexOf S + 1]?
  | _ => none

/-- Whether a run of `nextStmt` returned `false`. -/
def returnsFalse (r : Except Fault Bool) : Bool :=
  match r with
  | .ok false => true
  | _ => false

/-! ## Concrete trees -/

/-- A tree given by its tables: statement `i` is `ss[i]` and has the parents
`ps[i]`, declaration `i` is `ds[i]`; pointers outside the tables are null
statements without parents. -/
def mkContext (ss : List Stmt) (ps : List (List DynTypedNode)) (ds : List Decl) : ASTContext where
  stmts := fun i => ss.getD i ⟨.NullStmt, [], none, 0⟩
  decls := fun i => ds.getD i ⟨.VarDecl, ""⟩
  getParents := fun i => ps.getD i []

/-- The declarations of the examples: the enclosing function `f`, the kernel
`launch`, `cudaGetLastError`, another function `other`, a variable `y`. -/
def exampleDecls : List Decl :=
  [⟨.FunctionDecl, "f"⟩, ⟨.FunctionDecl, "launch"⟩, ⟨.FunctionDecl, "cudaGetLastError"⟩,
   ⟨.FunctionDecl, "other"⟩, ⟨.VarDecl, "y"⟩]

/-- Scenario A, `void f() { launch<<<1, 1>>>(); cudaGetLastError(); }`:
statement 0 is the body, 1 the kernel call (location 10), 2 the status check
(location 20), 3 and 4 the callee expressions of the two calls. -/
def scenarioA : ASTContext :=
  mkContext
    [⟨.CompoundStmt, [1, 2], none, 5⟩, ⟨.CUDAKernelCallExpr, [], some 1, 10⟩,
     ⟨.CallExpr, [], some 2, 20⟩, ⟨.ImplicitCastExpr, [], none, 10⟩,
     ⟨.ImplicitCastExpr, [], none, 20⟩]
    [[.decl 0], [.stmt 0], [.stmt 0], [.stmt 1], [.stmt 2]]
    exampleDecls

/-- Scenario B, `void f() { launch<<<1, 1>>>(); other(); }`: as scenario A,
with statement 2 a call to `other`. -/
def scenarioB : ASTContext :=
  mkContext
    [⟨.CompoundStmt, [1, 2], none, 5⟩, ⟨.CUDAKernelCallExpr, [], some 1, 10⟩,
     ⟨.CallExpr, [], some 3, 20⟩, ⟨.ImplicitCastExpr, [], none, 10⟩,
     ⟨.ImplicitCastExpr, [], none, 20⟩]
    [[.decl 0], [.stmt 0], [.stmt 0], [.stmt 1], [.stmt 2]]
    exampleDecls

/-- Scenario C inside an outer block,
`void f() { { launch<<<1, 1>>>(); } cudaGetLastError(); }`: statement 0 is the
outer body, 1 the inner block, 2 the kernel call (location 10), 3 the status
check that follows the inner block. -/
def scenarioC : ASTContext :=
  mkContext
    [⟨.CompoundStmt, [1, 3], none, 5⟩, ⟨.CompoundStmt, [2], none, 6⟩,
     ⟨.CUDAKernelCallExpr, [], some 1, 10⟩, ⟨.CallExpr, [], some 2, 20⟩]
    [[.decl 0], [.stmt 0], [.stmt 1], [.stmt 0]]
    exampleDecls

/-- Scenario D, `void f() { if (cond) launch<<<1, 1>>>(); cudaGetLastError(); }`:
statement 0 is the body, 1 the `if`, 2 the kernel call (location 10), 3 the
status check, 4 the condition. -/
def scenarioD : ASTContext :=
  mkContext
    [⟨.CompoundStmt, [1, 3], none, 5⟩, ⟨.IfStmt, [], none, 6⟩,
     ⟨.CUDAKernelCallExpr, [], some 1, 10⟩, ⟨.CallExpr, [], some 2, 20⟩,
     ⟨.ImplicitCastExpr, [], none, 7⟩]
    [[.decl 0], [.stmt 0], [.stmt 1], [.stmt 0], [.stmt 1]]
    exampleDecls

/-- A variable initialiser, `void f() { int y = other(launch<<<1, 1>>>()) ; }`
in shape: statement 0 is the body, 1 the declaration statement, 2 the call to
`other` whose parent is the variable declaration 4, 3 the kernel call nested
in it. -/
def initTree : ASTContext :=
  mkContext
    [⟨.CompoundStmt, [1], none, 5⟩, ⟨.DeclStmt, [], none, 6⟩,
     ⟨.CallExpr, [], some 3, 8⟩, ⟨.CUDAKernelCallExpr, [], some 1, 10⟩]
    [[.decl 0], [.stmt 0], [.decl 4], [.stmt 2]]
    exampleDecls

/-- A malformed tree: the kernel call 1 names the block 0 as its parent, but
the body of 0 holds only the status check 2. -/
def malformedTree : ASTContext :=
  mkContext
    [⟨.CompoundStmt, [2], none, 5⟩, ⟨.CUDAKernelCallExpr, [], some 1, 10⟩,
     ⟨.CallExpr, [], some 2, 20⟩]
    [[.decl 0], [.stmt 0], [.stmt 0]]
    exampleDecls

/-- A function with a `Tensor` parameter that launches a kernel,
`void f(Tensor t) { launch<<<1, 1>>>(); }`: declaration 0 is `f`, 1 the kernel,
2 the parameter `t`, 3 the record `Tensor`; statement 0 is the body, 1 the
kernel call. -/
def tensorTree : ASTContext :=
  mkContext
    [⟨.CompoundStmt, [1], none, 5⟩, ⟨.CUDAKernelCallExpr, [], some 1, 10⟩]
    [[.decl 0], [.stmt 0]]
    [⟨.FunctionDecl, "f"⟩, ⟨.FunctionDecl, "launch"⟩, ⟨.ParmVarDecl, "t"⟩,
     ⟨.CXXRecordDecl, "Tensor"⟩]

/-! ## Lemmas about the ascent loop -/

/-- More iterations do not change how the loop is left. -/
theorem nextStmtLoop_mono (ctx : ASTContext) (k : Nat) :
    ∀ (fuel n : Nat) (r : Ascent), nextStmtLoop ctx fuel n = some r →
      nextStmtLoop ctx (fuel + k) n = some r := by
  intro fuel
  induction fuel with
  | zero => intro n r h; simp [nextStmtLoop] at h
  | succ f ih =>
    intro n r h
    have e : f + 1 + k = (f + k) + 1 := by omega
    rw [e]
    unfold nextStmtLoop at h ⊢
    cases hp : ctx.getParents n with
    | nil => rw [hp] at h; simpa using h
    | cons p0 ps =>
      rw [hp] at h
      simp only at h ⊢
      cases hg : p0.getStmt with
      | none => rw [hg] at h; simpa using h
      | some pstmt =>
        rw [hg] at h
        simp only at h ⊢
        by_cases hc : isaCompoundStmt (ctx.stmts pstmt).stmtClass = true
        · simp only [hc, if_true] at h ⊢; exact h
        · simp only [hc] at h ⊢; exact ih pstmt r h

/-- One iteration of the loop at a node whose first parent is a statement that
is not a `CompoundStmt` moves to that parent. -/
theorem nextStmtLoop_step (ctx : ASTContext) (fuel n w : Nat)
    (hp : parentStmt ctx n = some w)
    (hw : isaCompoundStmt (ctx.stmts w).stmtClass = false) :
    nextStmtLoop ctx (fuel + 1) n = nextStmtLoop ctx fuel w := by
  unfold parentStmt at hp
  rw [nextStmtLoop]
  cases hg : ctx.getParents n with
  | nil => rw [hg] at hp; simp at hp
  | cons p0 ps =>
    rw [hg] at hp
    simp only at hp ⊢
    rw [hp]
    simp [hw]

/-- One iteration of the loop at a node whose first parent is a
`CompoundStmt` leaves the loop there. -/
theorem nextStmtLoop_found_of_parent (ctx : ASTContext) (fuel n B : Nat)
    (hp : parentStmt ctx n = some B)
    (hB : isaCompoundStmt (ctx.stmts B).stmtClass = true) :
    nextStmtLoop ctx (fuel + 1) n = some (.found B n) := by
  unfold parentStmt at hp
  rw [nextStmtLoop]
  cases hg : ctx.getParents n with
  | nil => rw [hg] at hp; simp at hp
  | cons p0 ps =>
    rw [hg] at hp
    simp only at hp ⊢
    rw [hp]
    simp [hB]

/-- One iteration of the loop at a node without a statement as first parent
leaves the loop with one of the two `return false`. -/
theorem nextStmtLoop_of_no_parentStmt (ctx : ASTContext) (fuel n : Nat)
    (hp : parentStmt ctx n = none) :
    nextStmtLoop ctx (fuel + 1) n = some (.noParents n) ∧ ctx.getParents n = [] ∨
      nextStmtLoop ctx (fuel + 1) n = some (.parentNotStmt n) ∧
        ∃ p0 ps, ctx.getParents n = p0 :: ps ∧ p0.getStmt = none := by
  unfold parentStmt at hp
  rw [nextStmtLoop]
  cases hg : ctx.getParents n with
  | nil => left; simp
  | cons p0 ps =>
    right
    rw [hg] at hp
    simp only at hp ⊢
    rw [hp]
    exact ⟨rfl, p0, ps, rfl, hp⟩

/-- A chain of `k` wrappers costs `k` iterations and nothing else. -/
theorem nextStmtLoop_wrapperTop (ctx : ASTContext) :
    ∀ (k n t : Nat), wrapperTop ctx k n = some t →
      ∀ fuel, nextStmtLoop ctx (fuel + k) n = nextStmtLoop ctx fuel t := by
  intro k
  induction k with
  | zero =>
    intro n t h fuel
    simp [wrapperTop] at h
    simp [h]
  | succ k ih =>
    intro n t h fuel
    rw [wrapperTop] at h
    cases hp : parentStmt ctx n with
    | none => rw [hp] at h; simp at h
    | some w =>
      rw [hp] at h
      simp only at h
      by_cases hc : isaCompoundStmt (ctx.stmts w).stmtClass = true
      · simp [hc] at h
      · have hc' : isaCompoundStmt (ctx.stmts w).stmtClass = false := by simpa using hc
        simp only [hc'] at h
        have e : fuel + (k + 1) = (fuel + k) + 1 := by omega
        rw [e, nextStmtLoop_step ctx (fuel + k) n w hp hc']
        exact ih w t h fuel

/-- When the loop is left by `break`, the ascended node has the block found as
its first parent. -/
theorem nextStmtLoop_found (ctx : ASTContext) :
    ∀ (fuel n B S : Nat), nextStmtLoop ctx fuel n = some (.found B S) →
      parentStmt ctx S = some B ∧ isaCompoundStmt (ctx.stmts B).stmtClass = true := by
  intro fuel
  induction fuel with
  | zero => intro n B S h; simp [nextStmtLoop] at h
  | succ f ih =>
    intro n B S h
    cases hp : parentStmt ctx n with
    | none =>
      rcases nextStmtLoop_of_no_parentStmt ctx f n hp with ⟨h1, _⟩ | ⟨h1, _⟩ <;>
        (rw [h1] at h; simp at h)
    | some w =>
      by_cases hc : isaCompoundStmt (ctx.stmts w).stmtClass = true
      · rw [nextStmtLoop_found_of_parent ctx f n w hp hc] at h
        simp at h
        obtain ⟨rfl, rfl⟩ := h
        exact ⟨hp, hc⟩
      · have hc' : isaCompoundStmt (ctx.stmts w).stmtClass = false := by simpa using hc
        rw [nextStmtLoop_step ctx f n w hp hc'] at h
        exact ih w B S h

/-- A node of depth at most `d` leaves the loop within `d + 1` iterations. -/
theorem nextStmtLoop_of_depthLE (ctx : ASTContext) :
    ∀ (d n : Nat), depthLE ctx d n = true → ∃ r, nextStmtLoop ctx (d + 1) n = some r := by
  intro d
  induction d with
  | zero =>
    intro n h
    cases hp : parentStmt ctx n with
    | none =>
      rcases nextStmtLoop_of_no_parentStmt ctx 0 n hp with ⟨h1, _⟩ | ⟨h1, _⟩ <;>
        exact ⟨_, h1⟩
    | some w => simp [depthLE, hp] at h
  | succ d ih =>
    intro n h
    cases hp : parentStmt ctx n with
    | none =>
      rcases nextStmtLoop_of_no_parentStmt ctx (d + 1) n hp with ⟨h1, _⟩ | ⟨h1, _⟩ <;>
        exact ⟨_, h1⟩
    | some w =>
      by_cases hc : isaCompoundStmt (ctx.stmts w).stmtClass = true
      · exact ⟨_, nextStmtLoop_found_of_parent ctx (d + 1) n w hp hc⟩
      · have hc' : isaCompoundStmt (ctx.stmts w).stmtClass = false := by simpa using hc
        rw [nextStmtLoop_step ctx (d + 1) n w hp hc']
        rw [depthLE, hp] at h
        exact ih w h

/-! ## Lemmas about `llvm::find` and the tail of `nextStmt` -/

/-- In a list holding `a` exactly once, the first position of `a` is the
position of `a`. -/
theorem indexOf_of_count_one (a : Nat) :
    ∀ (l : List Nat) (i : Nat), l.count a = 1 → l[i]? = some a → l.indexOf a = i := by
  intro l
  induction l with
  | nil => intro i h; simp at h
  | cons b t ih =>
    intro i hc hi
    by_cases hb : b = a
    · subst hb
      cases i with
      | zero => simp
      | succ j =>
        exfalso
        simp only [List.getElem?_cons_succ] at hi
        have hmem : b ∈ t := by
          obtain ⟨hlt, he⟩ := List.getElem?_eq_some.mp hi
          exact he ▸ List.getElem_mem hlt
        have : 0 < t.count b := List.count_pos_iff.mpr hmem
        simp [List.count_cons] at hc
        omega
    · cases i with
      | zero => simp at hi; exact absurd hi hb
      | succ j =>
        simp only [List.getElem?_cons_succ] at hi
        have hc' : t.count a = 1 := by
          simpa [List.count_cons, hb] using hc
        rw [List.indexOf_cons_ne _ hb, ih j hc' hi]

/-- The tail of `nextStmt` when the ascended node is at position `i` and is not
the last statement: the inner matcher applied to the statement at `i + 1`. -/
theorem nextStmtTail_of_indexOf (ctx : ASTContext) (B S i : Nat) (P : Nat → Bool)
    (hidx : (ctx.stmts B).body.indexOf S = i) (hi : i + 1 < (ctx.stmts B).body.length) :
    nextStmtTail ctx B S P = .ok (P ((ctx.stmts B).body[i + 1])) := by
  subst hidx
  unfold nextStmtTail
  have h1 : ¬ List.indexOf S (ctx.stmts B).body = (ctx.stmts B).body.length := by omega
  simp only [h1, if_false, hi, dite_true]

/-- The tail of `nextStmt` when the ascended node is in the body. -/
theorem nextStmtTail_of_mem (ctx : ASTContext) (B S : Nat) (P : Nat → Bool)
    (hmem : S ∈ (ctx.stmts B).body) : ∃ b, nextStmtTail ctx B S P = .ok b := by
  unfold nextStmtTail
  have h1 : ¬ List.indexOf S (ctx.stmts B).body = (ctx.stmts B).body.length := by
    have := List.indexOf_lt_length.mpr hmem
    omega
  simp only [h1, if_false]
  by_cases h2 : List.indexOf S (ctx.stmts B).body + 1 < (ctx.stmts B).body.length
  · exact ⟨P ((ctx.stmts B).body[List.indexOf S (ctx.stmts B).body + 1]), by
      simp only [h2, dite_true]⟩
  · exact ⟨false, by simp only [h2, dite_false]⟩

/-- The tail of `nextStmt` fails its assertion exactly when the ascended node is
not in the body. -/
theorem nextStmtTail_assertion_iff (ctx : ASTContext) (B S : Nat) (P : Nat → Bool) :
    nextStmtTail ctx B S P = .error .assertion ↔ S ∉ (ctx.stmts B).body := by
  constructor
  · intro h hmem
    obtain ⟨b, hb⟩ := nextStmtTail_of_mem ctx B S P hmem
    rw [hb] at h
    cases h
  · intro h
    unfold nextStmtTail
    have h1 : List.indexOf S (ctx.stmts B).body = (ctx.stmts B).body.length :=
      List.indexOf_eq_length.mpr h
    simp only [h1, if_true]

/-- On a well-formed tree, a node of depth at most `d` makes `nextStmt` return a
boolean within `d + 1` iterations. -/
theorem nextStmt_ok_of_wellFormed (ctx : ASTContext) (hwf : WellFormed ctx) (d n : Nat)
    (hd : depthLE ctx d n = true) (P : Nat → Bool) :
    ∃ b, nextStmt ctx (d + 1) n P = .ok b := by
  obtain ⟨r, hr⟩ := nextStmtLoop_of_depthLE ctx d n hd
  unfold nextStmt
  rw [hr]
  cases r with
  | noParents s => exact ⟨false, rfl⟩
  | parentNotStmt s => exact ⟨false, rfl⟩
  | found B S =>
    obtain ⟨hp, hB⟩ := nextStmtLoop_found ctx (d + 1) n B S hr
    have hown := hwf S
    simp only [ownedByParent, hp, hB, if_true] at hown
    have hc : (ctx.stmts B).body.count S = 1 := by simpa using hown
    have hmem : S ∈ (ctx.stmts B).body := List.count_pos_iff.mp (by omega)
    exact nextStmtTail_of_mem ctx B S P hmem

/-- The concrete trees of the scenarios are well formed. -/
theorem scenarioA_wellFormed : WellFormed scenarioA := by
  intro n
  rcases n with _ | _ | _ | _ | _ | n <;> rfl

/-- Scenario B is well formed. -/
theorem scenarioB_wellFormed : WellFormed scenarioB := by
  intro n
  rcases n with _ | _ | _ | _ | _ | n <;> rfl

/-- Scenario D is well formed. -/
theorem scenarioD_wellFormed : WellFormed scenarioD := by
  intro n
  rcases n with _ | _ | _ | _ | _ | n <;> rfl

/-! ## The adjacency resolver `nextStmt` -/

/-- C2: when `N` is the statement at index `i` of the body of the
`CompoundStmt` `B` (the first parent of `N` is `B`, `N` occurs exactly once in
the body) and `i + 1` is still an index of the body, `nextStmt` applied to `N`
with the inner matcher `P` returns exactly `P` of the statement at index
`i + 1`, after one iteration of the loop. -/
theorem nextStmt_eq_predicate_on_next (ctx : ASTContext) (fuel N B i : Nat) (P : Nat → Bool)
    (hpar : parentStmt ctx N = some B)
    (hB : isaCompoundStmt (ctx.stmts B).stmtClass = true)
    (hi : i + 1 < (ctx.stmts B).body.length)
    (hN : (ctx.stmts B).body[i]? = some N)
    (hcount : (ctx.stmts B).body.count N = 1) :
    nextStmt ctx (fuel + 1) N P = .ok (P ((ctx.stmts B).body[i + 1])) := by
  unfold nextStmt
  rw [nextStmtLoop_found_of_parent ctx fuel N B hpar hB]
  exact nextStmtTail_of_indexOf ctx B N i P (indexOf_of_count_one N _ i hcount hN) hi

/-- Scenarios A and B for C2: a kernel call directly followed by
`cudaGetLastError()` gives `true`, one followed by `other()` gives `false`. -/
theorem nextStmt_eq_predicate_on_next_witness :
    (parentStmt scenarioA 1 = some 0 ∧ (scenarioA.stmts 0).body.count 1 = 1 ∧
      nextStmt scenarioA 1 1 (check_kernel scenarioA) = .ok true) ∧
    (parentStmt scenarioB 1 = some 0 ∧ (scenarioB.stmts 0).body.count 1 = 1 ∧
      nextStmt scenarioB 1 1 (check_kernel scenarioB) = .ok false) :=
  ⟨⟨rfl, rfl, nextStmt_eq_predicate_on_next scenarioA 0 1 0 0 (check_kernel scenarioA)
      rfl rfl (by decide) rfl rfl⟩,
   ⟨rfl, rfl, nextStmt_eq_predicate_on_next scenarioB 0 1 0 0 (check_kernel scenarioB)
      rfl rfl (by decide) rfl rfl⟩⟩

/-- C3: when the node `S` at which the ascent from `N` stops is the last
statement of the body of the block `B` found (and occurs in it once),
`nextStmt` returns `false` for every inner matcher `P`, the matcher that is
true everywhere included; when `N` is a kernel call, the check run on `N`
reports it, whatever the rest of the tree holds. -/
theorem nextStmt_last_statement (ctx : ASTContext) (fuel N B S : Nat) (P : Nat → Bool)
    (hloop : nextStmtLoop ctx fuel N = some (.found B S))
    (hlast : (ctx.stmts B).body.getLast? = some S)
    (hcount : (ctx.stmts B).body.count S = 1) :
    nextStmt ctx fuel N P = .ok false ∧
      (isaCUDAKernelCallExpr (ctx.stmts N).stmtClass = true →
        matchAST ctx fuel [N] [] =
          .ok [⟨(ctx.stmts N).loc, "Kernel lauch without accompanying launch check"⟩]) := by
  have key : ∀ Q : Nat → Bool, nextStmt ctx fuel N Q = .ok false := by
    intro Q
    obtain ⟨pre, hpre⟩ := List.getLast?_eq_some_iff.mp hlast
    have hnot : S ∉ pre := by
      rw [hpre, List.count_append] at hcount
      have h1 : List.count S [S] = 1 := by simp
      rw [h1] at hcount
      exact List.count_eq_zero.mp (by omega)
    have hidx : (ctx.stmts B).body.indexOf S = pre.length := by
      rw [hpre, List.indexOf_append_of_not_mem hnot]
      simp
    have hlen : (ctx.stmts B).body.length = pre.length + 1 := by
      rw [hpre]; simp
    unfold nextStmt
    rw [hloop]
    unfold nextStmtTail
    have h1 : ¬ List.indexOf S (ctx.stmts B).body = (ctx.stmts B).body.length := by omega
    have h2 : ¬ List.indexOf S (ctx.stmts B).body + 1 < (ctx.stmts B).body.length := by omega
    simp only [h1, if_false, h2, dite_false]
  refine ⟨key P, ?_⟩
  intro hk
  simp only [matchAST, CheckKernelLaunchCheck.registerMatchers, hk, if_true,
    key (check_kernel ctx)]
  have hx : getNodeAsExpr ⟨[("x", DynTypedNode.stmt N)], ctx⟩ "x" = some N := by
    have he : isaExpr (ctx.stmts N).stmtClass = true := by
      revert hk
      cases (ctx.stmts N).stmtClass <;> simp [isaCUDAKernelCallExpr, isaExpr]
    simp [getNodeAsExpr, List.lookup, he]
  simp [CheckKernelLaunchCheck.check, hx]

/-- Scenario C for C3: the kernel call that is the only statement of an inner
block is reported although `cudaGetLastError()` follows that block. -/
theorem nextStmt_last_statement_witness :
    nextStmtLoop scenarioC 1 2 = some (.found 1 2) ∧
      (scenarioC.stmts 1).body.getLast? = some 2 ∧
      nextStmt scenarioC 1 2 (fun _ => true) = .ok false ∧
      matchAST scenarioC 1 [2] [] =
        .ok [⟨10, "Kernel lauch without accompanying launch check"⟩] :=
  ⟨rfl, rfl,
    (nextStmt_last_statement scenarioC 1 2 1 2 (fun _ => true) rfl rfl rfl).1,
    (nextStmt_last_statement scenarioC 1 2 1 2 (fun _ => true) rfl rfl rfl).2 rfl⟩

/-- C4: (1) when the first parent `W` of `N` is a statement that is not a
`CompoundStmt`, `nextStmt` at `N` is `nextStmt` at `W`, one loop iteration
later; (2) when `N` lies under a chain of `k` such wrappers whose top `Wk` is
the statement at index `i` of the body of the `CompoundStmt` `B` and `i + 1` is
still an index, `nextStmt` at `N` returns `P` of the statement at index
`i + 1`. -/
theorem nextStmt_ascends_wrappers (ctx : ASTContext) (P : Nat → Bool) :
    (∀ fuel N W : Nat, parentStmt ctx N = some W →
      isaCompoundStmt (ctx.stmts W).stmtClass = false →
      nextStmt ctx (fuel + 1) N P = nextStmt ctx fuel W P) ∧
    (∀ (fuel k N Wk B i : Nat) (hi : i + 1 < (ctx.stmts B).body.length),
      wrapperTop ctx k N = some Wk →
      parentStmt ctx Wk = some B →
      isaCompoundStmt (ctx.stmts B).stmtClass = true →
      (ctx.stmts B).body[i]? = some Wk →
      (ctx.stmts B).body.count Wk = 1 →
      nextStmt ctx (fuel + 1 + k) N P = .ok (P ((ctx.stmts B).body[i + 1]))) := by
  constructor
  · intro fuel N W hp hW
    unfold nextStmt
    rw [nextStmtLoop_step ctx fuel N W hp hW]
  · intro fuel k N Wk B i hi hchain hp hB hN hcount
    unfold nextStmt
    rw [nextStmtLoop_wrapperTop ctx k N Wk hchain (fuel + 1),
      nextStmtLoop_found_of_parent ctx fuel Wk B hp hB]
    exact nextStmtTail_of_indexOf ctx B Wk i P (indexOf_of_count_one Wk _ i hcount hN) hi

/-- Scenario D for C4: in `{ if (cond) launch(); cudaGetLastError(); }` the
resolver applied to the kernel call goes past the `if` and evaluates the
matcher on `cudaGetLastError()`: it returns `true`, nothing is reported. -/
theorem nextStmt_ascends_wrappers_witness :
    parentStmt scenarioD 2 = some 1 ∧ wrapperTop scenarioD 1 2 = some 1 ∧
      parentStmt scenarioD 1 = some 0 ∧
      nextStmt scenarioD 2 2 (check_kernel scenarioD) =
        nextStmt scenarioD 1 1 (check_kernel scenarioD) ∧
      nextStmt scenarioD 2 2 (check_kernel scenarioD) = .ok true ∧
      matchAST scenarioD 2 [0, 1, 4, 2, 3] [] = .ok [] :=
  ⟨rfl, rfl, rfl,
    (nextStmt_ascends_wrappers scenarioD (check_kernel scenarioD)).1 1 2 1 rfl rfl,
    (nextStmt_ascends_wrappers scenarioD (check_kernel scenarioD)).2 0 1 2 1 0 0
      (by decide) rfl rfl rfl rfl rfl,
    rfl⟩

/-- C5: when the chain of wrappers above `N` (first parents that are statements
and not `CompoundStmt`s) reaches a node `T` that has no parent, or whose first
parent is not a statement, `nextStmt` at `N` returns the boolean `false` for
every inner matcher `P`: no fault, and no dependence on `P`. -/
theorem nextStmt_no_enclosing_block (ctx : ASTContext) (fuel k N T : Nat) (P : Nat → Bool)
    (hchain : wrapperTop ctx k N = some T)
    (htop : ctx.getParents T = [] ∨
      ∃ p0 ps, ctx.getParents T = p0 :: ps ∧ p0.getStmt = none) :
    nextStmt ctx (fuel + 1 + k) N P = .ok false := by
  have hp : parentStmt ctx T = none := by
    unfold parentStmt
    rcases htop with h | ⟨p0, ps, h, hg⟩
    · rw [h]
    · rw [h]; exact hg
  unfold nextStmt
  rw [nextStmtLoop_wrapperTop ctx k N T hchain (fuel + 1)]
  rcases nextStmtLoop_of_no_parentStmt ctx fuel T hp with ⟨h1, _⟩ | ⟨h1, _⟩ <;> rw [h1]

/-- A kernel call nested in a call that initialises a variable: the ascent
reaches the variable declaration, `nextStmt` returns `false` even for the
matcher that is true everywhere; a statement without parents does the same. -/
theorem nextStmt_no_enclosing_block_witness :
    (wrapperTop initTree 1 3 = some 2 ∧ initTree.getParents 2 = [.decl 4] ∧
      nextStmt initTree 2 3 (fun _ => true) = .ok false) ∧
    (initTree.getParents 7 = [] ∧ nextStmt initTree 1 7 (fun _ => true) = .ok false) :=
  ⟨⟨rfl, rfl, nextStmt_no_enclosing_block initTree 0 1 3 2 (fun _ => true) rfl
      (Or.inr ⟨.decl 4, [], rfl, rfl⟩)⟩,
   ⟨rfl, nextStmt_no_enclosing_block initTree 0 0 7 7 (fun _ => true) rfl (Or.inl rfl)⟩⟩

/-- C7: (1) once the loop has stopped at the block `B` with the ascended node
`S`, the assertion `I != body_end()` fails exactly when `S` does not occur in
the body of `B`; (2) on a well-formed tree the assertion never fails, and
(3) a node of depth at most `d` makes `nextStmt` return a boolean within
`d + 1` iterations. -/
theorem nextStmt_assertion_iff (ctx : ASTContext) (N : Nat) (P : Nat → Bool) :
    (∀ fuel B S : Nat, nextStmtLoop ctx fuel N = some (.found B S) →
      (nextStmt ctx fuel N P = .error .assertion ↔ S ∉ (ctx.stmts B).body)) ∧
    (WellFormed ctx → ∀ fuel : Nat, nextStmt ctx fuel N P ≠ .error .assertion) ∧
    (WellFormed ctx → ∀ d : Nat, depthLE ctx d N = true →
      ∃ b, nextStmt ctx (d + 1) N P = .ok b) := by
  refine ⟨?_, ?_, ?_⟩
  · intro fuel B S hloop
    unfold nextStmt
    rw [hloop]
    exact nextStmtTail_assertion_iff ctx B S P
  · intro hwf fuel h
    unfold nextStmt at h
    cases hr : nextStmtLoop ctx fuel N with
    | none => rw [hr] at h; cases h
    | some r =>
      rw [hr] at h
      cases r with
      | noParents s => cases h
      | parentNotStmt s => cases h
      | found B S =>
        obtain ⟨hp, hB⟩ := nextStmtLoop_found ctx fuel N B S hr
        have hown := hwf S
        simp only [ownedByParent, hp, hB, if_true] at hown
        have hc : (ctx.stmts B).body.count S = 1 := by simpa using hown
        have hmem : S ∈ (ctx.stmts B).body := List.count_pos_iff.mp (by omega)
        exact (nextStmtTail_assertion_iff ctx B S P).mp h hmem
  · intro hwf d hd
    exact nextStmt_ok_of_wellFormed ctx hwf d N hd P

/-- The two sides of C7 on concrete trees: on the malformed tree the loop stops
at block 0 with the kernel call 1, which is not in the body, and the assertion
fails; on scenario A `nextStmt` returns a boolean. -/
theorem nextStmt_assertion_iff_witness :
    (nextStmtLoop malformedTree 1 1 = some (.found 0 1) ∧
      1 ∉ (malformedTree.stmts 0).body ∧
      nextStmt malformedTree 1 1 (check_kernel malformedTree) = .error .assertion) ∧
    (depthLE scenarioA 1 1 = true ∧
      ∃ b, nextStmt scenarioA 2 1 (check_kernel scenarioA) = .ok b) :=
  ⟨⟨rfl, by decide,
      ((nextStmt_assertion_iff malformedTree 1 (check_kernel malformedTree)).1 1 0 1 rfl).mpr
        (by decide)⟩,
   ⟨rfl, (nextStmt_assertion_iff scenarioA 1 (check_kernel scenarioA)).2.2
      scenarioA_wellFormed 1 rfl⟩⟩

/-- How the loop is left at a node without a wrapper above it, within one
iteration. -/
theorem nextStmtLoop_exit_now (ctx : ASTContext) (n : Nat)
    (h : parentStmt ctx n = none ∨
      ∃ w, parentStmt ctx n = some w ∧ isaCompoundStmt (ctx.stmts w).stmtClass = true) :
    ∃ r, nextStmtLoop ctx 1 n = some r ∧
      match r with
      | .noParents s => s = n ∧ ctx.getParents s = []
      | .parentNotStmt s =>
        s = n ∧ ∃ p0 ps, ctx.getParents s = p0 :: ps ∧ p0.getStmt = none
      | .found B s =>
        s = n ∧ parentStmt ctx s = some B ∧ isaCompoundStmt (ctx.stmts B).stmtClass = true := by
  rcases h with hp | ⟨w, hp, hc⟩
  · rcases nextStmtLoop_of_no_parentStmt ctx 0 n hp with ⟨h1, h2⟩ | ⟨h1, h2⟩
    · exact ⟨_, h1, rfl, h2⟩
    · exact ⟨_, h1, rfl, h2⟩
  · exact ⟨_, nextStmtLoop_found_of_parent ctx 0 n w hp hc, rfl, hp, hc⟩

/-- C8: from a node `N` of depth at most `d` the ascent loop is left after
exactly `k` moves to a parent for some `k ≤ d` (`k` iterations are not enough,
`k + 1` are), at the `k`-th ancestor `s` of `N`, in one of three ways: `s` has
no parent; the first parent of `s` is not a statement; or the first parent of
`s` is the `CompoundStmt` found. -/
theorem nextStmtLoop_terminates (ctx : ASTContext) (d N : Nat)
    (hd : depthLE ctx d N = true) :
    ∃ k r, k ≤ d ∧ nextStmtLoop ctx k N = none ∧ nextStmtLoop ctx (k + 1) N = some r ∧
      match r with
      | .noParents s => ancestor ctx k N = some s ∧ ctx.getParents s = []
      | .parentNotStmt s =>
        ancestor ctx k N = some s ∧ ∃ p0 ps, ctx.getParents s = p0 :: ps ∧ p0.getStmt = none
      | .found B s =>
        ancestor ctx k N = some s ∧ parentStmt ctx s = some B ∧
          isaCompoundStmt (ctx.stmts B).stmtClass = true := by
  induction d generalizing N with
  | zero =>
    have hp : parentStmt ctx N = none := by
      cases hp : parentStmt ctx N with
      | none => rfl
      | some w => simp [depthLE, hp] at hd
    obtain ⟨r, h1, h2⟩ := nextStmtLoop_exit_now ctx N (Or.inl hp)
    refine ⟨0, r, le_refl _, rfl, h1, ?_⟩
    cases r with
    | noParents s => exact ⟨by rw [h2.1]; rfl, h2.2⟩
    | parentNotStmt s => exact ⟨by rw [h2.1]; rfl, h2.2⟩
    | found B s => exact ⟨by rw [h2.1]; rfl, h2.2⟩
  | succ d ih =>
    have now : (parentStmt ctx N = none ∨
        ∃ w, parentStmt ctx N = some w ∧ isaCompoundStmt (ctx.stmts w).stmtClass = true) →
        ∃ k r, k ≤ d + 1 ∧ nextStmtLoop ctx k N = none ∧
          nextStmtLoop ctx (k + 1) N = some r ∧
          match r with
          | .noParents s => ancestor ctx k N = some s ∧ ctx.getParents s = []
          | .parentNotStmt s =>
            ancestor ctx k N = some s ∧
              ∃ p0 ps, ctx.getParents s = p0 :: ps ∧ p0.getStmt = none
          | .found B s =>
            ancestor ctx k N = some s ∧ parentStmt ctx s = some B ∧
              isaCompoundStmt (ctx.stmts B).stmtClass = true := by
      intro h
      obtain ⟨r, h1, h2⟩ := nextStmtLoop_exit_now ctx N h
      refine ⟨0, r, Nat.zero_le _, rfl, h1, ?_⟩
      cases r with
      | noParents s => exact ⟨by rw [h2.1]; rfl, h2.2⟩
      | parentNotStmt s => exact ⟨by rw [h2.1]; rfl, h2.2⟩
      | found B s => exact ⟨by rw [h2.1]; rfl, h2.2⟩
    cases hp : parentStmt ctx N with
    | none => exact now (Or.inl hp)
    | some w =>
      by_cases hc : isaCompoundStmt (ctx.stmts w).stmtClass = true
      · exact now (Or.inr ⟨w, hp, hc⟩)
      · have hc' : isaCompoundStmt (ctx.stmts w).stmtClass = false := by simpa using hc
        rw [depthLE, hp] at hd
        obtain ⟨k, r, hk, h0, h1, h2⟩ := ih w hd
        have ha : ancestor ctx (k + 1) N = ancestor ctx k w := by
          rw [ancestor, hp]
        refine ⟨k + 1, r, by omega, ?_, ?_, ?_⟩
        · rw [nextStmtLoop_step ctx k N w hp hc']; exact h0
        · rw [nextStmtLoop_step ctx (k + 1) N w hp hc']; exact h1
        · cases r with
          | noParents s => exact ⟨by rw [ha]; exact h2.1, h2.2⟩
          | parentNotStmt s => exact ⟨by rw [ha]; exact h2.1, h2.2⟩
          | found B s => exact ⟨by rw [ha]; exact h2.1, h2.2⟩

/-- The loop on scenario D for C8: the kernel call has depth 2 and the loop is
left within 3 iterations. -/
theorem nextStmtLoop_terminates_witness :
    depthLE scenarioD 2 2 = true ∧
      ∃ k r, k ≤ 2 ∧ nextStmtLoop scenarioD k 2 = none ∧
        nextStmtLoop scenarioD (k + 1) 2 = some r ∧
        match r with
        | .noParents s => ancestor scenarioD k 2 = some s ∧ scenarioD.getParents s = []
        | .parentNotStmt s =>
          ancestor scenarioD k 2 = some s ∧
            ∃ p0 ps, scenarioD.getParents s = p0 :: ps ∧ p0.getStmt = none
        | .found B s =>
          ancestor scenarioD k 2 = some s ∧ parentStmt scenarioD s = some B ∧
            isaCompoundStmt (scenarioD.stmts B).stmtClass = true :=
  ⟨rfl, nextStmtLoop_terminates scenarioD 2 2 rfl⟩

/-- C9: two inner matchers `P` and `Q` that agree on the statement immediately
following the ascended node in the block found (when there is one) give the
same result of `nextStmt`, on every tree and whatever `P` and `Q` are on the
other nodes. -/
theorem nextStmt_depends_on_following_only (ctx : ASTContext) (fuel N : Nat)
    (P Q : Nat → Bool)
    (hagree : ∀ s, followingStmt ctx fuel N = some s → P s = Q s) :
    nextStmt ctx fuel N P = nextStmt ctx fuel N Q := by
  unfold nextStmt
  unfold followingStmt at hagree
  cases hr : nextStmtLoop ctx fuel N with
  | none => rfl
  | some r =>
    rw [hr] at hagree
    cases r with
    | noParents s => rfl
    | parentNotStmt s => rfl
    | found B S =>
      simp only at hagree ⊢
      unfold nextStmtTail
      by_cases h1 : List.indexOf S (ctx.stmts B).body = (ctx.stmts B).body.length
      · simp only [h1, if_true]
      · simp only [h1, if_false]
        by_cases h2 : List.indexOf S (ctx.stmts B).body + 1 < (ctx.stmts B).body.length
        · simp only [h2, dite_true]
          rw [hagree _ (List.getElem?_eq_getElem h2)]
        · simp only [h2, dite_false]

/-- Two matchers on scenario A for C9: "is a
call to `cudaGetLastError`" and "is not the node 1" differ on the block 0 and
agree on statement 2. -/
theorem nextStmt_depends_on_following_only_witness :
    followingStmt scenarioA 1 1 = some 2 ∧
      check_kernel scenarioA 0 ≠ (fun s => decide (s ≠ 1)) 0 ∧
      nextStmt scenarioA 1 1 (check_kernel scenarioA) =
        nextStmt scenarioA 1 1 (fun s => decide (s ≠ 1)) :=
  ⟨rfl, by decide,
    nextStmt_depends_on_following_only scenarioA 1 1 (check_kernel scenarioA)
      (fun s => decide (s ≠ 1))
      (fun s hs => by
        have h2 : s = 2 := by
          have : followingStmt scenarioA 1 1 = some 2 := rfl
          rw [this] at hs
          exact (Option.some.inj hs).symm
        subst h2
        rfl)⟩

/-! ## The launch-check rule -/

/-- What the driver does at one statement of a well-formed tree: nothing when
the statement is not a kernel call or `nextStmt` returns `true`, one more
diagnostic at the statement otherwise. -/
theorem matchAST_cons (ctx : ASTContext) (hwf : WellFormed ctx) (d N : Nat)
    (hd : depthLE ctx d N = true) (rest : List Nat) (Diags : List Diagnostic) :
    matchAST ctx (d + 1) (N :: rest) Diags =
      matchAST ctx (d + 1) rest
        (if (isaCUDAKernelCallExpr (ctx.stmts N).stmtClass &&
            returnsFalse (nextStmt ctx (d + 1) N (check_kernel ctx))) = true then
          Diags ++ [⟨(ctx.stmts N).loc, "Kernel lauch without accompanying launch check"⟩]
        else Diags) := by
  obtain ⟨b, hb⟩ := nextStmt_ok_of_wellFormed ctx hwf d N hd (check_kernel ctx)
  by_cases hk : isaCUDAKernelCallExpr (ctx.stmts N).stmtClass = true
  · have he : isaExpr (ctx.stmts N).stmtClass = true := by
      revert hk
      cases (ctx.stmts N).stmtClass <;> simp [isaCUDAKernelCallExpr, isaExpr]
    cases b with
    | true =>
      simp [matchAST, CheckKernelLaunchCheck.registerMatchers, hk, hb, returnsFalse]
    | false =>
      have hx : getNodeAsExpr ⟨[("x", DynTypedNode.stmt N)], ctx⟩ "x" = some N := by
        simp [getNodeAsExpr, List.lookup, he]
      simp [matchAST, CheckKernelLaunchCheck.registerMatchers, hk, hb, returnsFalse,
        CheckKernelLaunchCheck.check, hx]
  · simp [matchAST, CheckKernelLaunchCheck.registerMatchers, hk]

/-- The driver over a traversal of a well-formed tree, started with the
diagnostics `Diags`. -/
theorem matchAST_eq_filter (ctx : ASTContext) (hwf : WellFormed ctx) (d : Nat) :
    ∀ (nodes : List Nat) (Diags : List Diagnostic),
      (∀ n ∈ nodes, depthLE ctx d n = true) →
      matchAST ctx (d + 1) nodes Diags =
        .ok (Diags ++
          (nodes.filter (fun N => isaCUDAKernelCallExpr (ctx.stmts N).stmtClass &&
              returnsFalse (nextStmt ctx (d + 1) N (check_kernel ctx)))).map
            (fun N => ⟨(ctx.stmts N).loc,
              "Kernel lauch without accompanying launch check"⟩)) := by
  intro nodes
  induction nodes with
  | nil => intro Diags _; simp [matchAST]
  | cons N rest ih =>
    intro Diags hd
    rw [matchAST_cons ctx hwf d N (hd N (List.mem_cons_self _ _)) rest Diags]
    rw [ih _ (fun n hn => hd n (List.mem_cons_of_mem _ hn))]
    by_cases hc : (isaCUDAKernelCallExpr (ctx.stmts N).stmtClass &&
        returnsFalse (nextStmt ctx (d + 1) N (check_kernel ctx))) = true
    · simp only [hc, if_true, List.filter_cons_of_pos, List.map_cons, List.append_assoc,
        List.singleton_append]
    · simp only [hc, if_false, List.filter_cons_of_neg, not_false_eq_true, Bool.false_eq_true]

/-- C1: on a well-formed tree, the check run over a traversal `nodes` (every
node of depth at most `d`) emits one diagnostic for each node, in order, that
is a kernel call for which `nextStmt` with the predicate "is a call to
`cudaGetLastError`" returns `false`, at that node, and no other diagnostic. -/
theorem launchCheck_reports_iff (ctx : ASTContext) (hwf : WellFormed ctx) (d : Nat)
    (nodes : List Nat) (hd : ∀ n ∈ nodes, depthLE ctx d n = true) :
    matchAST ctx (d + 1) nodes [] =
      .ok ((nodes.filter (fun N => isaCUDAKernelCallExpr (ctx.stmts N).stmtClass &&
            returnsFalse (nextStmt ctx (d + 1) N (check_kernel ctx)))).map
          (fun N => ⟨(ctx.stmts N).loc,
            "Kernel lauch without accompanying launch check"⟩)) := by
  have h := matchAST_eq_filter ctx hwf d nodes [] hd
  simpa using h

/-- Scenarios A and B for C1: `{ launch(); cudaGetLastError(); }` gives no
diagnostic, `{ launch(); other(); }` gives exactly one, at the kernel call
(location 10). -/
theorem launchCheck_reports_iff_witness :
    (matchAST scenarioA 3 [0, 1, 3, 2, 4] [] = .ok []) ∧
    (matchAST scenarioB 3 [0, 1, 3, 2, 4] [] =
      .ok [⟨10, "Kernel lauch without accompanying launch check"⟩]) :=
  ⟨launchCheck_reports_iff scenarioA scenarioA_wellFormed 2 [0, 1, 3, 2, 4] (by decide),
   launchCheck_reports_iff scenarioB scenarioB_wellFormed 2 [0, 1, 3, 2, 4] (by decide)⟩

/-! ## The callbacks -/

/-- C6, as the claim states it, fails: run on the match of scenario B the
callback emits one diagnostic at the kernel call, and its message is not
"operation launched without an accompanying status check". -/
theorem check_message_counterexample :
    (CheckKernelLaunchCheck.check ⟨[("x", .stmt 1)], scenarioB⟩ []).map Prod.snd =
        .ok [⟨10, "Kernel lauch without accompanying launch check"⟩] ∧
      (CheckKernelLaunchCheck.check ⟨[("x", .stmt 1)], scenarioB⟩ []).map Prod.snd ≠
        .ok [⟨10, "operation launched without an accompanying status check"⟩] := by
  refine ⟨rfl, ?_⟩
  intro h
  have h1 : (CheckKernelLaunchCheck.check ⟨[("x", .stmt 1)], scenarioB⟩ []).map Prod.snd =
      .ok [⟨10, "Kernel lauch without accompanying launch check"⟩] := rfl
  rw [h1] at h
  injection h with h
  revert h
  decide

/-- C6, amended: given a match result in which a kernel call `S` is bound to
"x", the callback returns normally, leaves the tree as it is, and appends
exactly one diagnostic, at the location of `S`, with the message
"Kernel lauch without accompanying launch check". -/
theorem check_emits_one_diagnostic (Result : MatchResult) (S : Nat) (Diags : List Diagnostic)
    (hbound : Result.Nodes.lookup "x" = some (.stmt S))
    (hlaunch : isaCUDAKernelCallExpr (Result.Context.stmts S).stmtClass = true) :
    CheckKernelLaunchCheck.check Result Diags =
      .ok (Result.Context,
        Diags ++ [⟨(Result.Context.stmts S).loc,
          "Kernel lauch without accompanying launch check"⟩]) := by
  have he : isaExpr (Result.Context.stmts S).stmtClass = true := by
    revert hlaunch
    cases (Result.Context.stmts S).stmtClass <;> simp [isaCUDAKernelCallExpr, isaExpr]
  simp [CheckKernelLaunchCheck.check, getNodeAsExpr, hbound, he]

/-- The callback on the match of scenario B, after an earlier diagnostic. -/
theorem check_emits_one_diagnostic_witness :
    CheckKernelLaunchCheck.registerMatchers scenarioB 1 1 = .ok (some [("x", .stmt 1)]) ∧
      CheckKernelLaunchCheck.check ⟨[("x", .stmt 1)], scenarioB⟩ [⟨3, "earlier"⟩] =
        .ok (scenarioB,
          [⟨3, "earlier"⟩, ⟨10, "Kernel lauch without accompanying launch check"⟩]) :=
  ⟨rfl, check_emits_one_diagnostic ⟨[("x", .stmt 1)], scenarioB⟩ 1 [⟨3, "earlier"⟩] rfl rfl⟩

/-- C10 on a concrete match: `CheckKernelLaunchCheck` binds the kernel call to
"x" and reads "x" back as an expression, the lookup is non-null; the pattern of
`HasDeviceGuardCheck` binds the function to "func", the callback looks up "x",
gets null and dereferences it. -/
theorem hasDeviceGuard_check_null_lookup :
    (CheckKernelLaunchCheck.registerMatchers tensorTree 1 1 = .ok (some [("x", .stmt 1)]) ∧
      getNodeAsExpr ⟨[("x", .stmt 1)], tensorTree⟩ "x" = some 1) ∧
    (HasDeviceGuardCheck.registerMatchers tensorTree (fun n => decide (n = 0)) 0 =
        some [("func", .decl 0)] ∧
      getNodeAsFunctionDecl ⟨[("func", .decl 0)], tensorTree⟩ "func" = some 0 ∧
      getNodeAsFunctionDecl ⟨[("func", .decl 0)], tensorTree⟩ "x" = none ∧
      HasDeviceGuardCheck.check ⟨[("func", .decl 0)], tensorTree⟩ = .error .nullDeref) := by
  refine ⟨⟨rfl, rfl⟩, by decide, by decide, by decide, rfl⟩

end Cuda
